import Mathlib

set_option maxRecDepth 100000

/-!
# A shallow embedding of `sanitize_filenames_recursively_here.py`

This file models the `sanitize` function of the repository (source file
`src/sanitize_filenames_recursively_here.py`, lines 54-86) together with the
constant tables it consults (`blacklist`, `reserved`) and the Python string
primitives it uses (`str.rstrip(". ")`, `str.strip()`, `str.split`,
`re.split(r"/|\\", ·)`, slicing with possibly negative bounds,
`unicodedata.normalize("NFKD", ·)`, `os.path.join`).

Filenames are sequences of Unicode code points; we model them as `List Char`
(`Char` is exactly a Unicode scalar value) and wrap the result in `String`.
The process-global `exceptions` list of the script is threaded through
`sanitize` explicitly: the function receives the current list and returns the
new one, which is the list with one entry appended in the reserved-name branch
and the unchanged list otherwise.
-/

/-- Blacklisted code points (source line 2): `\ / : * ? " < > |` and NUL. -/
def blacklist : List Char := ['\\', '/', ':', '*', '?', '"', '<', '>', '|', '\x00']

/-- Reserved words on Windows and other exceptions (source lines 5-9). -/
def reserved : List String :=
  ["CON", "PRN", "AUX", "NUL", "COM1", "COM2", "COM3", "COM4", "COM5",
   "COM6", "COM7", "COM8", "COM9", "LPT1", "LPT2", "LPT3", "LPT4", "LPT5",
   "LPT6", "LPT7", "LPT8", "LPT9", "Thumbs.db:encryptable"]

/-- Modelled from CPython: the code points that `str.isspace` reports as
whitespace and that a no-argument `str.strip()` therefore removes:
TAB, LF, VT, FF, CR, FS, GS, RS, US, SPACE, NEL (U+0085), NBSP (U+00A0),
U+1680, U+2000-U+200A, U+2028, U+2029, U+202F, U+205F and U+3000. -/
def pyWhitespaceList : List Char :=
  ['\x09', '\x0a', '\x0b', '\x0c', '\x0d', '\x1c', '\x1d', '\x1e', '\x1f',
   ' ', '\u0085', ' ', ' ', ' ', ' ', ' ', ' ',
   ' ', ' ', ' ', ' ', ' ', ' ', ' ',
   ' ', ' ', ' ', ' ', '　']

/-- `c` is whitespace for Python's no-argument `str.strip()`. -/
def pyWhitespace (c : Char) : Bool := pyWhitespaceList.contains c

/-- Modelled from Python `unicodedata.normalize("NFKD", ·)`: the character-wise
compatibility decomposition.  Only the decompositions of the code points
exercised in this development are tabulated:
U+FF0A FULLWIDTH ASTERISK has compatibility decomposition `<wide> U+002A`
(the ASCII asterisk), and U+045E CYRILLIC SMALL LETTER SHORT U has canonical
decomposition U+0443 U+0306 (the latter is the repository's own
`test_unicode_normalization` at source line 116).  Every other code point is
treated as having no decomposition; in particular all ASCII code points, the
combining breve U+0306, and NEL U+0085 indeed have none in Unicode. -/
def decompNFKD (c : Char) : List Char :=
  if c = '＊' then ['*']
  else if c = 'ў' then ['у', '̆']
  else [c]

/-- `unicodedata.normalize("NFKD", s)` applied character-wise (source line 61). -/
def nfkd (l : List Char) : List Char := l.flatMap decompNFKD

/-- Python `s.rstrip(". ")` (source lines 62 and 83): repeatedly drop a final
`'.'` or `' '`. -/
def rstripDotSpace (l : List Char) : List Char :=
  ((l.reverse).dropWhile (fun c => c = '.' || c = ' ')).reverse

/-- Python `s.strip()` (source line 63): drop leading and trailing whitespace. -/
def pyStrip (l : List Char) : List Char :=
  (((l.dropWhile pyWhitespace).reverse).dropWhile pyWhitespace).reverse

/-- Split a list of characters at every separator character (the separators are
not kept; empty pieces are kept, and the empty list yields one empty piece).
This is both Python's `s.split(".")` for the predicate `(· = '.')` and
`re.split(r"/|\\", s)` for the predicate matching `'/'` and `'\\'`. -/
def splitP (p : Char → Bool) : List Char → List (List Char)
  | [] => [[]]
  | c :: cs =>
    match splitP p cs with
    | [] => [[]]
    | h :: t => if p c then [] :: h :: t else (c :: h) :: t

/-- Python `l[:m]` where `m` is a possibly negative `int`. -/
def pyTakeInt (l : List Char) (m : Int) : List Char :=
  if 0 ≤ m then l.take m.toNat else l.take (l.length - (-m).toNat)

/-- Source line 58: `"".join(c for c in filename if c not in blacklist)`. -/
def removeBlacklisted (l : List Char) : List Char :=
  l.filter (fun c => decide (c ∉ blacklist))

/-- Source line 60: `"".join(c for c in filename if 31 < ord(c))`. -/
def removeControl (l : List Char) : List Char :=
  l.filter (fun c => decide (31 < c.toNat))

/-- Source lines 58-61: both character filters followed by NFKD. -/
def normalized (l : List Char) : List Char :=
  nfkd (removeControl (removeBlacklisted l))

/-- Source lines 62-63: `rstrip(". ")` then `strip()`. -/
def stripped (l : List Char) : List Char :=
  pyStrip (rstripDotSpace (normalized l))

/-- Source lines 64-65: `if all([x == "." for x in filename]): filename = "__" + filename`. -/
def dotGuard (l : List Char) : List Char :=
  if l.all (fun c => decide (c = '.')) then '_' :: '_' :: l else l

/-- Source lines 66-67 and 84-85: `if len(filename) == 0: filename = "__"`. -/
def emptyGuard (l : List Char) : List Char :=
  if l.length = 0 then ['_', '_'] else l

/-- The value of `filename` at source line 68, just before the length test. -/
def shortForm (l : List Char) : List Char :=
  emptyGuard (dotGuard (stripped l))

/-- Source line 69, first half: `re.split(r"/|\\", filename)[-1]`. -/
def lastSlashComponent (l : List Char) : List Char :=
  (splitP (fun c => c = '/' || c = '\\') l).getLastD []

/-- Source line 69: `parts = re.split(r"/|\\", filename)[-1].split(".")`. -/
def dotParts (l : List Char) : List (List Char) :=
  splitP (fun c => c = '.') (lastSlashComponent l)

/-- Source lines 70-74: `ext`, which is `"." + parts.pop()` when the last
slash component has more than one dot-separated part, and `""` otherwise. -/
def rawExt (l : List Char) : List Char :=
  if (dotParts l).length > 1 then '.' :: (dotParts l).getLastD [] else []

/-- Source line 72: `filename = filename[:-len(ext)]` (only taken when an
extension was detected, otherwise `filename` is left alone). -/
def cutBase (l : List Char) : List Char :=
  if (dotParts l).length > 1 then l.take (l.length - (rawExt l).length) else l

/-- Source lines 75-76: `if filename == "": filename = "__"`. -/
def cutBase1 (l : List Char) : List Char :=
  if cutBase l = [] then ['_', '_'] else cutBase l

/-- Source lines 77-78: `if len(ext) > 254: ext = ext[254:]` — note that this
Python slice DROPS the first 254 characters and keeps the rest. -/
def keptExt (l : List Char) : List Char :=
  if (rawExt l).length > 254 then (rawExt l).drop 254 else rawExt l

/-- Source lines 79-80: `maxl = 255 - len(ext); filename = filename[:maxl]`,
where `maxl` is a Python `int` and may be negative. -/
def truncBase (l : List Char) : List Char :=
  pyTakeInt (cutBase1 l) (255 - (keptExt l).length)

/-- Source lines 69-85: the over-length branch taken when
`len(filename) > 255`. -/
def overLong (l : List Char) : List Char :=
  emptyGuard (rstripDotSpace (truncBase l ++ keptExt l))

/-- The whole non-reserved transformation pipeline (source lines 58-85). -/
def sanitizeCore (l : List Char) : List Char :=
  if (shortForm l).length > 255 then overLong (shortForm l) else shortForm l

/-- Modelled from POSIX `os.path.join(root, name)` with two arguments (source
line 56 runs on the script's own directory walk): an absolute `name` wins,
otherwise the parts are joined with exactly one `/`. -/
def pathJoin (root name : String) : String :=
  if name.data.head? = some '/' then name
  else if root = "" ∨ root.data.getLast? = some '/' then root ++ name
  else root ++ "/" ++ name

/-- The sanitizer, source lines 54-86.  `sanitize(filename, root)` returns the
safe name; the process-global `exceptions` list is threaded explicitly as the
third argument and the second component of the result (the reserved-name
branch appends `os.path.join(root, filename)` to it, source line 56). -/
def sanitize (filename root : String) (exceptions : List String) :
    String × List String :=
  if filename ∈ reserved then (filename, exceptions ++ [pathJoin root filename])
  else (String.mk (sanitizeCore filename.data), exceptions)

/-! ## Grounding: the source file's own test suite (lines 89-127)

These reproduce, inside the model, the assertions the script itself runs at
load time, grounding the embedding (including the NFKD table) in the
source's observable behavior. -/

theorem ground_invalid_chars :
    (sanitize "A/B/C" "/abc/efg" []).1 = "ABC" ∧
    (sanitize "A*C.d" "/abc/efg" []).1 = "AC.d" := by decide

theorem ground_invalid_suffix :
    (sanitize "def." "/abc/efg" []).1 = "def" ∧
    (sanitize "def.ghi" "/abc/efg" []).1 = "def.ghi" := by decide

theorem ground_long_names :
    (sanitize (String.mk (List.replicate 300 'X')) "/abc/efg" []).1.length = 255 := by decide

theorem ground_long_dotted_name :
    (sanitize (String.mk (List.replicate 300 '.' ++ ['.', 't', 'x', 't'])) "/abc/efg" []).1.length = 255 := by decide

theorem ground_unicode_normalization :
    (sanitize "ў" "/abc/efg" []).1 = String.mk ['у', '̆'] := by decide

theorem ground_extensions :
    (sanitize (String.mk (List.replicate 1000 'X' ++ ['.', 'p', 'd', 'f'])) "/abc/efg" []).1 =
      String.mk (List.replicate 251 'X' ++ ['.', 'p', 'd', 'f']) := by decide

/-! ## Concrete inputs used by individual claims -/

/-- A 511-code-point name, `"X."` followed by 509 `'Y'`s: its dot extension has
510 code points, so line 78's `ext = ext[254:]` keeps a 256-code-point tail. -/
def overflowInput : String := String.mk ('X' :: '.' :: List.replicate 509 'Y')

/-! ## Claim C1 -/

/-- C1: the claim "for every non-reserved input the result of `sanitize` has
length at most 255 code points" fails on the code: for the 511-code-point
input `"X." + "Y"*509` the over-length branch keeps a 256-code-point
extension tail (`ext[254:]`), the base is truncated away entirely, and the
returned string has 256 code points. -/
theorem C1_length_violation :
    overflowInput ∉ reserved ∧
    (sanitize overflowInput "/abc/efg" []).1.length = 256 := by decide

/-! ## Claim C3 -/

/-- C3: the claim "an oversized extension is truncated to at most 254
characters and the base is truncated so that `len(base) + len(ext) <= 255`"
fails on the code: for the input `"X." + "Y"*509` (which reaches line 69
unchanged, with 511 code points) the kept extension `ext[254:]` has 256
code points — line 78 drops the FIRST 254 characters instead of capping the
length at 254 — and the concatenated base + extension has 256 code points. -/
theorem C3_truncation_violation :
    shortForm overflowInput.data = overflowInput.data ∧
    (keptExt (shortForm overflowInput.data)).length = 256 ∧
    (truncBase (shortForm overflowInput.data) ++
      keptExt (shortForm overflowInput.data)).length = 256 := by decide

/-! ## Claim C2, counterexample part -/

/-- C2 counterexample: sanitization CAN re-introduce a blacklisted character.
U+FF0A FULLWIDTH ASTERISK is not blacklisted, so it survives the filter of
line 58, and the NFKD normalization of line 61 then decomposes it to the
blacklisted ASCII `'*'`, which is returned. -/
theorem C2_blacklist_reintroduced :
    ("＊" : String) ∉ reserved ∧
    (sanitize "＊" "/abc/efg" []).1 = "*" ∧
    '*' ∈ blacklist := by decide

/-! ## Claim C4, counterexample part -/

/-- C4 counterexample: `sanitize` is not idempotent, even on a non-reserved
name whose first-pass result has length 1 ≤ 255.  The first pass over
`"＊"` (U+FF0A) returns `"*"` (NFKD re-introduces the blacklisted ASCII
asterisk); the second pass deletes that `'*'` and degenerates to `"__"`. -/
theorem C4_not_idempotent :
    ("＊" : String) ∉ reserved ∧
    (sanitize "＊" "/abc/efg" []).1.length ≤ 255 ∧
    (sanitize ((sanitize "＊" "/abc/efg" []).1) "/abc/efg" []).1 ≠
      (sanitize "＊" "/abc/efg" []).1 := by decide

/-! ## Claim C5 -/

/-- C5: a filename that is exactly (case-sensitively) a member of the reserved
set is returned unchanged, and the only side effect is appending the joined
`(containing directory, name)` record `os.path.join(root, filename)` to the
exceptions collection (source lines 55-56). -/
theorem C5_reserved_verbatim (name root : String) (exc : List String)
    (h : name ∈ reserved) :
    sanitize name root exc = (name, exc ++ [pathJoin root name]) := by
  simp [sanitize, h]

/-- C5 witness: `sanitize "NUL"` is returned unchanged (not prefixed) and the
joined record is appended to the exceptions list. -/
theorem C5_reserved_verbatim_witness :
    ("NUL" : String) ∈ reserved ∧
    sanitize "NUL" "/abc/efg" [] = ("NUL", ["/abc/efg/NUL"]) :=
  ⟨by decide, by simpa using C5_reserved_verbatim "NUL" "/abc/efg" [] (by decide)⟩

/-! ## Claim C9 -/

/-- C9: for a filename not in the reserved set, `sanitize` leaves the
exceptions collection unchanged, and the returned string does not depend on
the containing-directory argument (nor on the exceptions argument). -/
theorem C9_root_independent (s r1 r2 : String) (e1 e2 : List String)
    (h : s ∉ reserved) :
    (sanitize s r1 e1).2 = e1 ∧
    (sanitize s r1 e1).1 = (sanitize s r2 e2).1 := by
  simp [sanitize, h]

/-- C9 witness at a concrete non-reserved name and two distinct roots. -/
theorem C9_root_independent_witness :
    ("abc" : String) ∉ reserved ∧
    ((sanitize "abc" "/a" []).2 = [] ∧
      (sanitize "abc" "/a" []).1 = (sanitize "abc" "/b" ["x"]).1) :=
  ⟨by decide, C9_root_independent "abc" "/a" "/b" [] ["x"] (by decide)⟩

/-! ## Claim C10 -/

/-- C10: the reserved-name check is performed only on the original input, so
`sanitize` can produce a Windows-reserved filename: `"NUL "` (trailing
space) is not reserved, and sanitizing it yields exactly `"NUL"`. -/
theorem C10_output_can_be_reserved :
    ("NUL " : String) ∉ reserved ∧
    (sanitize "NUL " "/abc/efg" []).1 = "NUL" ∧
    ("NUL" : String) ∈ reserved := by decide

/-! ## Claim C6, counterexample part -/

/-- C6 counterexample: the output CAN end in a `'.'`.  NEL U+0085 is Python
whitespace but is neither `'.'` nor `' '`, so in `"a.\x85"` it shields the
dot from line 62's `rstrip(". ")`; line 63's `strip()` then removes it and
re-exposes the trailing dot. -/
theorem C6_trailing_dot :
    ("a.\x85" : String) ∉ reserved ∧
    (sanitize "a.\x85" "/abc/efg" []).1 = "a." := by decide

/-! ## Character-tracking lemmas

Every character of a sanitized name comes from the NFKD-normalized filtered
input, or is one of the `'_'` introduced by the `"__"` guards, or the `'.'`
prepended to a detected extension. -/

lemma mem_of_mem_rstrip {l : List Char} {c : Char}
    (h : c ∈ rstripDotSpace l) : c ∈ l := by
  unfold rstripDotSpace at h
  rw [List.mem_reverse] at h
  exact List.mem_reverse.1 ((List.dropWhile_sublist _).subset h)

lemma mem_of_mem_pyStrip {l : List Char} {c : Char}
    (h : c ∈ pyStrip l) : c ∈ l := by
  unfold pyStrip at h
  rw [List.mem_reverse] at h
  have h2 := (List.dropWhile_sublist _).subset h
  rw [List.mem_reverse] at h2
  exact (List.dropWhile_sublist _).subset h2

lemma splitP_ne_nil (p : Char → Bool) : ∀ l : List Char, splitP p l ≠ [] := by
  intro l
  cases l with
  | nil => simp [splitP]
  | cons c cs =>
    unfold splitP
    cases h : splitP p cs with
    | nil => simp
    | cons a t =>
      dsimp only
      split <;> simp

lemma mem_of_mem_splitP {p : Char → Bool} :
    ∀ {l piece : List Char}, piece ∈ splitP p l → ∀ {c : Char}, c ∈ piece → c ∈ l := by
  intro l
  induction l with
  | nil =>
    intro piece hp c hc
    simp [splitP] at hp
    subst hp
    simp at hc
  | cons a t ih =>
    intro piece hp c hc
    obtain ⟨h0, r, hz⟩ : ∃ h0 r, splitP p t = h0 :: r := by
      cases hh : splitP p t with
      | nil => exact absurd hh (splitP_ne_nil p t)
      | cons x y => exact ⟨x, y, rfl⟩
    unfold splitP at hp
    rw [hz] at hp
    dsimp only at hp
    by_cases hpa : p a
    · rw [if_pos hpa] at hp
      rcases List.mem_cons.1 hp with hp | hp
      · subst hp; simp at hc
      · exact List.mem_cons_of_mem _ (ih (hz ▸ hp) hc)
    · rw [if_neg hpa] at hp
      rcases List.mem_cons.1 hp with hp | hp
      · subst hp
        rcases List.mem_cons.1 hc with hc | hc
        · subst hc; exact List.mem_cons_self _ _
        · exact List.mem_cons_of_mem _ (ih (hz ▸ List.mem_cons_self h0 r) hc)
      · exact List.mem_cons_of_mem _ (ih (hz ▸ List.mem_cons_of_mem h0 hp) hc)

lemma getLastD_mem : ∀ {L : List (List Char)} (d : List Char), L ≠ [] → L.getLastD d ∈ L := by
  intro L
  induction L with
  | nil => intro d h; exact absurd rfl h
  | cons a t ih =>
    intro d _
    cases t with
    | nil => simp [List.getLastD]
    | cons b u =>
      rw [List.getLastD_cons]
      exact List.mem_cons_of_mem _ (ih a (by simp))

lemma mem_of_mem_lastSlashComponent {l : List Char} {c : Char}
    (h : c ∈ lastSlashComponent l) : c ∈ l := by
  unfold lastSlashComponent at h
  exact mem_of_mem_splitP (getLastD_mem _ (splitP_ne_nil _ _)) h

lemma mem_of_mem_dotPart {l piece : List Char} (hp : piece ∈ dotParts l)
    {c : Char} (hc : c ∈ piece) : c ∈ l :=
  mem_of_mem_lastSlashComponent (mem_of_mem_splitP hp hc)

lemma mem_of_mem_rawExt {l : List Char} {c : Char}
    (h : c ∈ rawExt l) : c = '.' ∨ c ∈ l := by
  unfold rawExt at h
  split at h
  · rcases List.mem_cons.1 h with h | h
    · exact Or.inl h
    · exact Or.inr (mem_of_mem_dotPart (getLastD_mem _ (splitP_ne_nil _ _)) h)
  · simp at h

lemma mem_of_mem_keptExt {l : List Char} {c : Char}
    (h : c ∈ keptExt l) : c = '.' ∨ c ∈ l := by
  unfold keptExt at h
  split at h
  · exact mem_of_mem_rawExt (List.drop_subset _ _ h)
  · exact mem_of_mem_rawExt h

lemma mem_of_mem_cutBase1 {l : List Char} {c : Char}
    (h : c ∈ cutBase1 l) : c = '_' ∨ c ∈ l := by
  unfold cutBase1 at h
  split at h
  · rcases List.mem_cons.1 h with h | h
    · exact Or.inl h
    · rcases List.mem_cons.1 h with h | h
      · exact Or.inl h
      · simp at h
  · unfold cutBase at h
    split at h
    · exact Or.inr (List.take_subset _ _ h)
    · exact Or.inr h

lemma mem_of_mem_truncBase {l : List Char} {c : Char}
    (h : c ∈ truncBase l) : c = '_' ∨ c ∈ l := by
  unfold truncBase pyTakeInt at h
  split at h
  · exact mem_of_mem_cutBase1 (List.take_subset _ _ h)
  · exact mem_of_mem_cutBase1 (List.take_subset _ _ h)

lemma mem_of_mem_emptyGuard {l : List Char} {c : Char}
    (h : c ∈ emptyGuard l) : c = '_' ∨ c ∈ l := by
  unfold emptyGuard at h
  split at h
  · rcases List.mem_cons.1 h with h | h
    · exact Or.inl h
    · rcases List.mem_cons.1 h with h | h
      · exact Or.inl h
      · simp at h
  · exact Or.inr h

lemma mem_of_mem_dotGuard {l : List Char} {c : Char}
    (h : c ∈ dotGuard l) : c = '_' ∨ c ∈ l := by
  unfold dotGuard at h
  split at h
  · rcases List.mem_cons.1 h with h | h
    · exact Or.inl h
    · rcases List.mem_cons.1 h with h | h
      · exact Or.inl h
      · exact Or.inr h
  · exact Or.inr h

lemma mem_of_mem_overLong {l : List Char} {c : Char}
    (h : c ∈ overLong l) : c ∈ l ∨ c = '_' ∨ c = '.' := by
  unfold overLong at h
  rcases mem_of_mem_emptyGuard h with h | h
  · exact Or.inr (Or.inl h)
  · rcases List.mem_append.1 (mem_of_mem_rstrip h) with h | h
    · rcases mem_of_mem_truncBase h with h | h
      · exact Or.inr (Or.inl h)
      · exact Or.inl h
    · rcases mem_of_mem_keptExt h with h | h
      · exact Or.inr (Or.inr h)
      · exact Or.inl h

lemma mem_of_mem_shortForm {l : List Char} {c : Char}
    (h : c ∈ shortForm l) : c ∈ normalized l ∨ c = '_' := by
  unfold shortForm at h
  rcases mem_of_mem_emptyGuard h with h | h
  · exact Or.inr h
  · rcases mem_of_mem_dotGuard h with h | h
    · exact Or.inr h
    · exact Or.inl (mem_of_mem_rstrip (mem_of_mem_pyStrip h))

lemma mem_of_mem_sanitizeCore {l : List Char} {c : Char}
    (h : c ∈ sanitizeCore l) : c ∈ normalized l ∨ c = '_' ∨ c = '.' := by
  unfold sanitizeCore at h
  split at h
  · rcases mem_of_mem_overLong h with h | h
    · rcases mem_of_mem_shortForm h with h | h
      · exact Or.inl h
      · exact Or.inr (Or.inl h)
    · exact Or.inr h
  · rcases mem_of_mem_shortForm h with h | h
    · exact Or.inl h
    · exact Or.inr (Or.inl h)

/-! ## Character goodness, non-emptiness, and trailing-character lemmas -/

/-- Every character of the filtered-and-normalized name has code point above
31 and is left unchanged by a further `decompNFKD`. -/
lemma normalized_good {l : List Char} {c : Char} (h : c ∈ normalized l) :
    31 < c.toNat ∧ decompNFKD c = [c] := by
  unfold normalized nfkd at h
  rcases List.mem_flatMap.1 h with ⟨d, hd, hc⟩
  have hd31 : 31 < d.toNat := by
    unfold removeControl at hd
    exact of_decide_eq_true (List.mem_filter.1 hd).2
  by_cases h1 : d = '＊'
  · subst h1
    rw [show decompNFKD '＊' = ['*'] from by decide] at hc
    rcases List.mem_singleton.1 hc with rfl
    exact ⟨by decide, by decide⟩
  · by_cases h2 : d = 'ў'
    · subst h2
      rw [show decompNFKD 'ў' = ['у', '̆'] from by decide] at hc
      rcases List.mem_cons.1 hc with rfl | hc
      · exact ⟨by decide, by decide⟩
      · rcases List.mem_singleton.1 hc with rfl
        exact ⟨by decide, by decide⟩
    · have hdd : decompNFKD d = [d] := by
        unfold decompNFKD
        rw [if_neg h1, if_neg h2]
      rw [hdd] at hc
      rcases List.mem_singleton.1 hc with rfl
      exact ⟨hd31, hdd⟩

/-- Every character of a sanitized name has code point above 31 and is left
unchanged by a further `decompNFKD`. -/
lemma sanitizeCore_good {l : List Char} {c : Char} (h : c ∈ sanitizeCore l) :
    31 < c.toNat ∧ decompNFKD c = [c] := by
  rcases mem_of_mem_sanitizeCore h with h | h | h
  · exact normalized_good h
  · subst h; exact ⟨by decide, by decide⟩
  · subst h; exact ⟨by decide, by decide⟩

lemma emptyGuard_ne_nil (l : List Char) : emptyGuard l ≠ [] := by
  unfold emptyGuard
  split
  · simp
  · next h => exact fun hn => h (by simp [hn])

lemma shortForm_ne_nil (l : List Char) : shortForm l ≠ [] := by
  unfold shortForm
  exact emptyGuard_ne_nil _

lemma overLong_ne_nil (l : List Char) : overLong l ≠ [] := by
  unfold overLong
  exact emptyGuard_ne_nil _

/-- The sanitizer pipeline never returns the empty character list. -/
lemma sanitizeCore_ne_nil (l : List Char) : sanitizeCore l ≠ [] := by
  unfold sanitizeCore
  split
  · exact overLong_ne_nil _
  · exact shortForm_ne_nil _

/-- The first element surviving a `dropWhile` falsifies the predicate. -/
lemma head?_dropWhile_false {p : Char → Bool} :
    ∀ {l : List Char} {c : Char}, (l.dropWhile p).head? = some c → p c = false := by
  intro l
  induction l with
  | nil => intro c h; simp [List.dropWhile] at h
  | cons a t ih =>
    intro c h
    rw [List.dropWhile_cons] at h
    by_cases hpa : p a
    · rw [if_pos hpa] at h
      exact ih h
    · rw [if_neg hpa] at h
      simp at h
      subst h
      exact Bool.eq_false_iff.2 hpa

/-- The last character of an `rstrip(". ")` result is neither `'.'` nor `' '`. -/
lemma rstrip_getLast {l : List Char} {c : Char}
    (h : (rstripDotSpace l).getLast? = some c) : ¬(c = '.' ∨ c = ' ') := by
  unfold rstripDotSpace at h
  rw [List.getLast?_reverse] at h
  have hp := head?_dropWhile_false h
  intro hc
  rcases hc with hc | hc <;> simp [hc] at hp

/-- The last character of a `strip()` result is not Python whitespace. -/
lemma pyStrip_getLast {l : List Char} {c : Char}
    (h : (pyStrip l).getLast? = some c) : pyWhitespace c = false := by
  unfold pyStrip at h
  rw [List.getLast?_reverse] at h
  exact head?_dropWhile_false h

lemma emptyGuard_getLast_ne_space {l : List Char}
    (hl : l.getLast? ≠ some ' ') : (emptyGuard l).getLast? ≠ some ' ' := by
  unfold emptyGuard
  split
  · decide
  · exact hl

/-- The value of `filename` at line 68 never ends in `' '`. -/
lemma shortForm_getLast_ne_space (l : List Char) :
    (shortForm l).getLast? ≠ some ' ' := by
  unfold shortForm
  apply emptyGuard_getLast_ne_space
  unfold dotGuard
  split
  · next hall =>
    intro h
    have hmem := List.mem_of_mem_getLast? h
    rcases List.mem_cons.1 hmem with h1 | h1
    · exact absurd h1 (by decide)
    rcases List.mem_cons.1 h1 with h2 | h2
    · exact absurd h2 (by decide)
    · have := List.all_eq_true.1 hall _ h2
      exact absurd (of_decide_eq_true this) (by decide)
  · intro h
    have := pyStrip_getLast (l := rstripDotSpace (normalized l)) h
    exact absurd this (by decide)

/-- The sanitized name never ends in `' '`. -/
lemma sanitizeCore_getLast_ne_space (l : List Char) :
    (sanitizeCore l).getLast? ≠ some ' ' := by
  unfold sanitizeCore
  split
  · unfold overLong
    apply emptyGuard_getLast_ne_space
    intro h
    exact rstrip_getLast h (Or.inr rfl)
  · exact shortForm_getLast_ne_space l

/-! ## Claim C2, amended part -/

/-- C2 (amended): for every non-reserved input the output contains no code
point with ordinal ≤ 31; and it contains no blacklisted code point PROVIDED
the NFKD normalization of the filtered input (line 61) introduces none — the
unconditional statement is false, since NFKD can re-introduce a blacklisted
character (see the counterexample `"＊"`). -/
theorem C2_no_control_and_conditional_no_blacklist (s root : String)
    (exc : List String) (h : s ∉ reserved) :
    (∀ c ∈ (sanitize s root exc).1.data, 31 < c.toNat) ∧
    ((∀ c ∈ normalized s.data, c ∉ blacklist) →
      ∀ c ∈ (sanitize s root exc).1.data, c ∉ blacklist) := by
  have hout : (sanitize s root exc).1.data = sanitizeCore s.data := by
    simp [sanitize, h]
  rw [hout]
  constructor
  · intro c hc
    exact (sanitizeCore_good hc).1
  · intro hb c hc
    rcases mem_of_mem_sanitizeCore hc with h1 | h1 | h1
    · exact hb c h1
    · subst h1; decide
    · subst h1; decide

/-- C2 witness: the amended statement at the concrete input `"abc"`. -/
theorem C2_no_control_and_conditional_no_blacklist_witness :
    ("abc" : String) ∉ reserved ∧
    ((∀ c ∈ (sanitize "abc" "/abc/efg" []).1.data, 31 < c.toNat) ∧
      ((∀ c ∈ normalized ("abc" : String).data, c ∉ blacklist) →
        ∀ c ∈ (sanitize "abc" "/abc/efg" []).1.data, c ∉ blacklist)) :=
  ⟨by decide, C2_no_control_and_conditional_no_blacklist "abc" "/abc/efg" [] (by decide)⟩

/-! ## Claim C6, amended part -/

/-- C6 (amended): for every input filename not in the reserved set, the string
returned by `sanitize` never ends in a space character.  (The further claim
that it never ends in `'.'` is false — see the counterexample `"a.\x85"` —
because line 63's `strip()` can remove a trailing non-space whitespace
character and re-expose a dot that line 62's `rstrip(". ")` could not see.) -/
theorem C6_no_trailing_space (s root : String) (exc : List String)
    (h : s ∉ reserved) :
    (sanitize s root exc).1.data.getLast? ≠ some ' ' := by
  have hout : (sanitize s root exc).1.data = sanitizeCore s.data := by
    simp [sanitize, h]
  rw [hout]
  exact sanitizeCore_getLast_ne_space s.data

/-- C6 witness: the amended statement at the concrete input `"abc "`. -/
theorem C6_no_trailing_space_witness :
    ("abc " : String) ∉ reserved ∧
    (sanitize "abc " "/abc/efg" []).1.data.getLast? ≠ some ' ' :=
  ⟨by decide, C6_no_trailing_space "abc " "/abc/efg" [] (by decide)⟩

/-! ## Claim C7 -/

/-- Every reserved name contains a character that is neither blacklisted nor a
control character (so a string of forbidden characters is never reserved). -/
lemma reserved_has_robust_char :
    ∀ t ∈ reserved, ∃ c ∈ t.data, c ∉ blacklist ∧ 31 < c.toNat := by decide

/-- If both character filters leave nothing, the pipeline returns `"__"`. -/
lemma sanitizeCore_of_filters_nil {l : List Char}
    (hrm : removeControl (removeBlacklisted l) = []) :
    sanitizeCore l = ['_', '_'] := by
  unfold sanitizeCore shortForm stripped normalized
  rw [hrm]
  decide

/-- C7: `sanitize` is total by construction, and every input composed solely
of forbidden characters (each one blacklisted or a control code point) — in
particular the empty string — produces the result `"__"`. -/
theorem C7_degenerate_inputs_give_underscores (s root : String)
    (exc : List String)
    (h : ∀ c ∈ s.data, c ∈ blacklist ∨ c.toNat ≤ 31) :
    (sanitize s root exc).1 = "__" := by
  have hres : s ∉ reserved := by
    intro hr
    rcases reserved_has_robust_char s hr with ⟨c, hc, hnb, hgt⟩
    rcases h c hc with h1 | h1
    · exact hnb h1
    · omega
  have hrm : removeControl (removeBlacklisted s.data) = [] := by
    rw [show removeControl (removeBlacklisted s.data) =
        List.filter (fun c => decide (31 < c.toNat)) (removeBlacklisted s.data) from rfl]
    rw [List.filter_eq_nil_iff]
    intro c hcmem
    have hcs : c ∈ s.data := List.mem_of_mem_filter hcmem
    have hnb : ¬(c ∈ blacklist) := by
      have := (List.mem_filter.1 (show c ∈ List.filter
        (fun c => decide (c ∉ blacklist)) s.data from hcmem)).2
      exact of_decide_eq_true this
    rcases h c hcs with h1 | h1
    · exact absurd h1 hnb
    · simp
      omega
  have : (sanitize s root exc).1 = String.mk (sanitizeCore s.data) := by
    simp [sanitize, hres]
  rw [this, sanitizeCore_of_filters_nil hrm]

/-- C7 witness: a name consisting of a single blacklisted character. -/
theorem C7_degenerate_inputs_give_underscores_witness :
    (∀ c ∈ ("*" : String).data, c ∈ blacklist ∨ c.toNat ≤ 31) ∧
    (sanitize "*" "/abc/efg" []).1 = "__" :=
  ⟨by decide, C7_degenerate_inputs_give_underscores "*" "/abc/efg" [] (by decide)⟩

/-! ## Claim C8 -/

/-- Every reserved name is a non-empty literal. -/
lemma reserved_ne_empty : ∀ t ∈ reserved, t ≠ "" := by decide

/-- C8: for every input string, reserved or not, `sanitize` returns a
non-empty string. -/
theorem C8_output_nonempty (s root : String) (exc : List String) :
    (sanitize s root exc).1 ≠ "" := by
  unfold sanitize
  split
  · next h => exact reserved_ne_empty s h
  · intro hc
    have hdata : sanitizeCore s.data = [] := by
      have := congrArg String.data hc
      simpa using this
    exact sanitizeCore_ne_nil _ hdata

/-! ## Fixed-point lemmas for the amended idempotence claim -/

/-- NFKD is the identity on a list of decomposition-inert characters. -/
lemma nfkd_eq_self : ∀ {l : List Char}, (∀ c ∈ l, decompNFKD c = [c]) → nfkd l = l := by
  intro l
  induction l with
  | nil => intro _; rfl
  | cons a t ih =>
    intro h
    unfold nfkd
    rw [List.flatMap_cons, h a (List.mem_cons_self a t)]
    have ht : nfkd t = t := ih (fun c hc => h c (List.mem_cons_of_mem _ hc))
    unfold nfkd at ht
    rw [ht]
    rfl

/-- A list fixed by `rstrip(". ")` does not end in `'.'` or `' '`. -/
lemma rstrip_eq_self_getLast {l : List Char} (hl : rstripDotSpace l = l)
    {c : Char} (hc : l.getLast? = some c) : ¬(c = '.' ∨ c = ' ') := by
  intro hcd
  cases hr : l.reverse with
  | nil =>
    have hnil : l = [] := by simpa using congrArg List.reverse hr
    rw [hnil] at hc
    simp at hc
  | cons a t =>
    have ha : a = c := by
      have hh := List.head?_reverse l
      rw [hr] at hh
      simp only [List.head?_cons, hc] at hh
      exact Option.some.inj hh
    subst ha
    have hpa : (decide (a = '.') || decide (a = ' ')) = true := by
      rcases hcd with h | h <;> simp [h]
    have hshort : rstripDotSpace l =
        (t.dropWhile (fun c => c = '.' || c = ' ')).reverse := by
      unfold rstripDotSpace
      rw [hr, List.dropWhile_cons, if_pos hpa]
    have hlen1 : (rstripDotSpace l).length ≤ t.length := by
      rw [hshort, List.length_reverse]
      exact (List.dropWhile_sublist _).length_le
    have hlen2 : l.length = t.length + 1 := by
      have hlr := congrArg List.length hr
      rw [List.length_reverse] at hlr
      simpa using hlr
    rw [hl] at hlen1
    omega

/-- The pipeline is the identity on a non-empty, short-enough list of
non-blacklisted, non-control, NFKD-inert characters that is already fixed by
both strips. -/
lemma sanitizeCore_eq_self {o : List Char}
    (hbl : ∀ c ∈ o, c ∉ blacklist)
    (hgood : ∀ c ∈ o, 31 < c.toNat ∧ decompNFKD c = [c])
    (hrs : rstripDotSpace o = o)
    (hst : pyStrip o = o)
    (hne : o ≠ [])
    (hlen : o.length ≤ 255) :
    sanitizeCore o = o := by
  have h1 : removeBlacklisted o = o := by
    unfold removeBlacklisted
    rw [List.filter_eq_self]
    intro c hc
    exact decide_eq_true (hbl c hc)
  have h2 : removeControl o = o := by
    unfold removeControl
    rw [List.filter_eq_self]
    intro c hc
    exact decide_eq_true (hgood c hc).1
  have h3 : nfkd o = o := nfkd_eq_self (fun c hc => (hgood c hc).2)
  have hlast : o.getLast? = some (o.getLast hne) := List.getLast?_eq_getLast o hne
  have hnotdot : ¬(o.getLast hne = '.' ∨ o.getLast hne = ' ') :=
    rstrip_eq_self_getLast hrs hlast
  have hdg : dotGuard o = o := by
    unfold dotGuard
    rw [if_neg]
    intro hall
    have := List.all_eq_true.1 hall _ (List.getLast_mem hne)
    exact hnotdot (Or.inl (of_decide_eq_true this))
  have heg : emptyGuard o = o := by
    unfold emptyGuard
    rw [if_neg]
    simpa using hne
  have hsf : shortForm o = o := by
    unfold shortForm stripped normalized
    rw [h1, h2, h3, hrs, hst, hdg, heg]
  unfold sanitizeCore
  rw [hsf, if_neg (by omega)]

/-- `sanitize` returns its input unchanged when the input is a fixed point of
every pipeline step (the reserved branch returns it verbatim anyway). -/
lemma sanitize_eq_self (o r : String) (e : List String)
    (hbl : ∀ c ∈ o.data, c ∉ blacklist)
    (hgood : ∀ c ∈ o.data, 31 < c.toNat ∧ decompNFKD c = [c])
    (hrs : rstripDotSpace o.data = o.data)
    (hst : pyStrip o.data = o.data)
    (hne : o.data ≠ [])
    (hlen : o.length ≤ 255) :
    (sanitize o r e).1 = o := by
  unfold sanitize
  split
  · rfl
  · show String.mk (sanitizeCore o.data) = o
    rw [sanitizeCore_eq_self hbl hgood hrs hst hne hlen]

/-! ## Claim C4, amended part -/

/-- C4 (amended): `sanitize(sanitize(name)) == sanitize(name)` holds for every
non-reserved name whose first-pass result has length ≤ 255, contains no
blacklisted code point, and is left unchanged by the `rstrip(". ")` and
`strip()` primitives (equivalently: does not end in `'.'` and has no leading
or trailing Python whitespace).  The claim as stated — requiring only
length ≤ 255 — is false; see the counterexample over `"＊"`. -/
theorem C4_conditional_idempotence (s r1 r2 : String) (e1 e2 : List String)
    (h : s ∉ reserved)
    (hlen : (sanitize s r1 e1).1.length ≤ 255)
    (hbl : ∀ c ∈ (sanitize s r1 e1).1.data, c ∉ blacklist)
    (hrs : rstripDotSpace (sanitize s r1 e1).1.data = (sanitize s r1 e1).1.data)
    (hst : pyStrip (sanitize s r1 e1).1.data = (sanitize s r1 e1).1.data) :
    (sanitize ((sanitize s r1 e1).1) r2 e2).1 = (sanitize s r1 e1).1 := by
  have hout : (sanitize s r1 e1).1.data = sanitizeCore s.data := by
    simp [sanitize, h]
  have hgood : ∀ c ∈ (sanitize s r1 e1).1.data,
      31 < c.toNat ∧ decompNFKD c = [c] := by
    rw [hout]
    exact fun c hc => sanitizeCore_good hc
  have hne : (sanitize s r1 e1).1.data ≠ [] := by
    rw [hout]
    exact sanitizeCore_ne_nil _
  exact sanitize_eq_self _ r2 e2 hbl hgood hrs hst hne hlen

/-- C4 witness: the amended statement at the concrete input `"abc"`. -/
theorem C4_conditional_idempotence_witness :
    (("abc" : String) ∉ reserved ∧
      (sanitize "abc" "/a" []).1.length ≤ 255 ∧
      (∀ c ∈ (sanitize "abc" "/a" []).1.data, c ∉ blacklist) ∧
      rstripDotSpace (sanitize "abc" "/a" []).1.data = (sanitize "abc" "/a" []).1.data ∧
      pyStrip (sanitize "abc" "/a" []).1.data = (sanitize "abc" "/a" []).1.data) ∧
    (sanitize ((sanitize "abc" "/a" []).1) "/b" ["x"]).1 = (sanitize "abc" "/a" []).1 :=
  ⟨by decide,
    C4_conditional_idempotence "abc" "/a" "/b" [] ["x"] (by decide) (by decide)
      (by decide) (by decide) (by decide)⟩
